import Mathlib

/-!
Verification of the rainbow-delimiters colorizer (src/main.js).

The development shallow-embeds the color-assignment core of the program:
  * `hslToRgb` embeds `ColorUtils.HSL_TO_RGB.convert`;
  * `hslToHex` embeds `ColorUtils.hslToHex` (hex formatting via
    `toString(16).padStart(2, '0')`);
  * `generateBaseColors` embeds `ColorPaletteGenerator.generateBaseColors`;
  * `adjustColor` embeds `ColorAdjuster.adjustColor`, with the ambient
    dark-mode flag made an explicit boolean parameter;
  * `getNextColor`, `step`, `scan`, `processText`, `colorize` embed the
    stack-based scan `RainbowDelimiters.processText`.

JavaScript numbers are modelled as rationals; machine integers arising in
the scan (depth, indices) are naturals, with `Math.max(0, depth - 1)`
becoming truncated subtraction on `ℕ`.  The output string of the scan is
modelled as a list of segments (`Seg`): a verbatim character, or a span
wrapping one delimiter character with a color; rendering a segment list
(`renderAll`) reproduces the exact string the JavaScript code builds.
The JavaScript `Set` of used colors is modelled as a list with
value equality (palette entries are pairwise distinct objects and, by
construction, pairwise distinct values, so object identity and value
equality agree on every reachable state).
-/

/-- A color in hue/saturation/lightness form, the `{h, s, l}` records of
the source. -/
structure HSL where
  h : ℚ
  s : ℚ
  l : ℚ
deriving DecidableEq

/-- JavaScript `a % b` for the nonnegative operands used by the code
(`(h / 60) % 2` with `h ≥ 0`): equals `a - b * ⌊a / b⌋` there. -/
def jsMod (a b : ℚ) : ℚ := a - b * ⌊a / b⌋

/-- JavaScript `Math.round` for the nonnegative arguments used by the code:
`⌊q + 1/2⌋`. -/
def jsRound (q : ℚ) : ℤ := ⌊q + 1 / 2⌋

/-- Embeds `ColorUtils.HSL_TO_RGB.convert` (src/main.js lines 40-64). -/
def hslToRgb (h s l : ℚ) : ℤ × ℤ × ℤ :=
  let s1 := s / 100
  let l1 := l / 100
  let c := (1 - |2 * l1 - 1|) * s1
  let x := c * (1 - |jsMod (h / 60) 2 - 1|)
  let m := l1 - c / 2
  let rgb : ℚ × ℚ × ℚ :=
    if h < 60 then (c, x, 0)
    else if h < 120 then (x, c, 0)
    else if h < 180 then (0, c, x)
    else if h < 240 then (0, x, c)
    else if h < 300 then (x, 0, c)
    else (c, 0, x)
  (jsRound ((rgb.1 + m) * 255), jsRound ((rgb.2.1 + m) * 255),
    jsRound ((rgb.2.2 + m) * 255))

/-- The lowercase digit characters of `Number.prototype.toString(16)`:
`'0'..'9'` then `'a'..'f'`. -/
def hexDigitChar (d : ℕ) : Char :=
  if d < 10 then Char.ofNat (48 + d) else Char.ofNat (87 + d)

/-- Fuel-indexed digit accumulation of `Number.prototype.toString(16)`
(repeated division by 16, most significant digit first). -/
def toString16Go : ℕ → ℕ → List Char → List Char
  | 0, _, acc => acc
  | fuel + 1, n, acc =>
    if n < 16 then hexDigitChar n :: acc
    else toString16Go fuel (n / 16) (hexDigitChar (n % 16) :: acc)

/-- JavaScript `n.toString(16)` for a natural number `n` (`n + 1` fuel always
suffices since `n / 16 < n` for `n ≥ 16`). -/
def toString16 (n : ℕ) : List Char := toString16Go (n + 1) n []

/-- JavaScript `.padStart(2, '0')` on a character list. -/
def padStart2 (l : List Char) : List Char :=
  List.replicate (2 - l.length) '0' ++ l

/-- One channel of the hex formatting in `ColorUtils.hslToHex`:
`ch.toString(16).padStart(2, '0')`. -/
def toHexByte (n : ℕ) : List Char := padStart2 (toString16 n)

/-- Embeds `ColorUtils.hslToHex` (src/main.js lines 66-69).  The `toNat`
coercions are justified by `hslToRgb_range`: on the inputs the program
uses, every channel is a nonnegative integer. -/
def hslToHex (h s l : ℚ) : List Char :=
  let rgb := hslToRgb h s l
  '#' :: (toHexByte rgb.1.toNat ++ toHexByte rgb.2.1.toNat ++
    toHexByte rgb.2.2.toNat)

/-- Embeds `ColorPaletteGenerator.generateBaseColors` (src/main.js
lines 74-87): `count` colors with hue `i * (360 / count)`,
saturation 70, lightness 50. -/
def generateBaseColors (count : ℕ) : List HSL :=
  (List.range count).map (fun (i : ℕ) => ⟨(i : ℚ) * (360 / (count : ℚ)), 70, 50⟩)

/-- Embeds `ColorAdjuster.adjustColor` (src/main.js lines 107-120), with
`detectDarkMode()` made the explicit parameter `isDarkMode`. -/
def adjustColor (baseColor : HSL) (depth : ℕ) (isDarkMode : Bool) : HSL :=
  let baseLightness : ℚ := if isDarkMode then 65 else 35
  let depthAdjustment : ℚ := ((depth % 3 : ℕ) : ℚ) * (if isDarkMode then -5 else 5)
  { h := baseColor.h
    s := max 40 (baseColor.s - ((depth / 3 : ℕ) : ℚ) * 10)
    l := baseLightness + depthAdjustment }

/-- The recognized opening delimiter characters,
`Object.keys(this.delimiter_pairs)`. -/
def isOpening (c : Char) : Bool := c == '(' || c == '[' || c == '{'

/-- The recognized closing delimiter characters,
`Object.values(this.delimiter_pairs)`. -/
def isClosing (c : Char) : Bool := c == ')' || c == ']' || c == '}'

/-- A delimiter character of either kind. -/
def isDelim (c : Char) : Bool := isOpening c || isClosing c

/-- Whether `o` and `c` form one of the three `delimiter_pairs` entries. -/
def isMatchingPair (o c : Char) : Bool :=
  (o == '(' && c == ')') || (o == '[' && c == ']') || (o == '{' && c == '}')

/-- The effect of `usedColors.add(color)` on the list model of the `Set`. -/
def addUsed (c : HSL) (used : List HSL) : List HSL :=
  if c ∈ used then used else c :: used

/-- Embeds the closure `getNextColor` (src/main.js lines 144-154).
Returns the chosen color together with the new used-set. -/
def getNextColor (palette used : List HSL) (depth : ℕ) : HSL × List HSL :=
  let availableColors := palette.filter (fun c => decide (c ∉ used))
  if availableColors.length = 0 then
    (palette.getD (depth % palette.length) ⟨0, 0, 0⟩, [])
  else
    let color := availableColors.getD (depth % availableColors.length) ⟨0, 0, 0⟩
    (color, addUsed color used)

/-- The mutable locals of `processText`: nesting depth, the stack of base
colors, and the used-color set.  `Math.max(0, depth - 1)` is truncated
subtraction on `ℕ`. -/
structure ScanState where
  depth : ℕ
  colorStack : List HSL
  usedColors : List HSL
deriving DecidableEq

/-- One piece of the output string: a verbatim character, or one
delimiter character wrapped in a color span. -/
inductive Seg where
  | text (c : Char)
  | span (color : HSL) (c : Char)
deriving DecidableEq

/-- One iteration of the scan loop of `processText` (src/main.js
lines 156-179) on a single character. -/
def step (isDark : Bool) (palette : List HSL) (st : ScanState) (c : Char) :
    ScanState × Seg :=
  if isOpening c then
    let r := getNextColor palette st.usedColors st.depth
    (⟨st.depth + 1, r.1 :: st.colorStack, r.2⟩,
      Seg.span (adjustColor r.1 st.depth isDark) c)
  else if isClosing c then
    match st.colorStack with
    | b :: rest =>
      (⟨st.depth - 1, rest, st.usedColors⟩,
        Seg.span (adjustColor b st.depth isDark) c)
    | [] =>
      let r := getNextColor palette st.usedColors st.depth
      (⟨st.depth - 1, [], r.2⟩, Seg.span (adjustColor r.1 st.depth isDark) c)
  else (st, Seg.text c)

/-- The scan loop of `processText`, iterated over the whole text. -/
def scan (isDark : Bool) (palette : List HSL) (st : ScanState) :
    List Char → ScanState × List Seg
  | [] => (st, [])
  | c :: cs =>
    let r := step isDark palette st c
    let rest := scan isDark palette r.1 cs
    (rest.1, r.2 :: rest.2)

/-- The palette `this.baseColors`: the default 32-color palette built by the
`RainbowDelimiters` constructor. -/
def baseColors : List HSL := generateBaseColors 32

/-- The initial scan state: depth 0, empty stack, empty used-set. -/
def initState : ScanState := ⟨0, [], []⟩

/-- The segment output of `RainbowDelimiters.processText` on a text. -/
def processText (isDark : Bool) (text : List Char) : List Seg :=
  (scan isDark baseColors initState text).2

/-- The scan state after `RainbowDelimiters.processText` finishes. -/
def finalState (isDark : Bool) (text : List Char) : ScanState :=
  (scan isDark baseColors initState text).1

/-- The text content of a segment, with the span markup stripped: the
wrapped character itself. -/
def stripSeg : Seg → List Char
  | .text c => [c]
  | .span _ c => [c]

/-- The exact characters the JavaScript code appends to `result` for one
segment: the character itself, or
`<span style="color: HEX">c</span>`. -/
def render : Seg → List Char
  | .text c => [c]
  | .span color c =>
    "<span style=\"color: ".toList ++ hslToHex color.h color.s color.l ++
      "\">".toList ++ [c] ++ "</span>".toList

/-- Concatenation of a list of character lists. -/
def flatCat : List (List Char) → List Char
  | [] => []
  | l :: ls => l ++ flatCat ls

/-- Strip all color markup from a segment list. -/
def stripMarkup (segs : List Seg) : List Char := flatCat (segs.map stripSeg)

/-- Render a segment list to the literal output string. -/
def renderAll (segs : List Seg) : List Char := flatCat (segs.map render)

/-- The external entry point `colorize(text, isDarkTheme)`: the full
output string of `processText`. -/
def colorize (text : List Char) (isDark : Bool) : List Char :=
  renderAll (processText isDark text)

/-! ### Helper lemmas -/

theorem generateBaseColors_length (count : ℕ) :
    (generateBaseColors count).length = count := by
  rw [generateBaseColors, List.length_map, List.length_range]

theorem generateBaseColors_getD (count i : ℕ) (hi : i < count) :
    (generateBaseColors count).getD i ⟨0, 0, 0⟩ =
      ⟨(i : ℚ) * (360 / (count : ℚ)), 70, 50⟩ := by
  have hlen : i < (generateBaseColors count).length := by
    rw [generateBaseColors_length]; exact hi
  rw [List.getD_eq_getElem _ _ hlen]
  simp only [generateBaseColors, List.getElem_map, List.getElem_range]

theorem baseColors_getD_zero : baseColors.getD 0 ⟨0, 0, 0⟩ = ⟨0, 70, 50⟩ := by
  have h := generateBaseColors_getD 32 0 (by norm_num)
  rw [baseColors, h]
  norm_num

theorem baseColors_length : baseColors.length = 32 := by
  rw [baseColors, generateBaseColors_length]

/-! ### C6: depth/theme adjustment of a base color -/

/-- Claim C6: for every base color, depth and theme, the adjusted color keeps
the base hue; its lightness is the theme baseline (35 light / 65 dark)
plus `(depth % 3)` times the theme offset (+5 light / -5 dark); its
saturation is the base saturation minus 10 for every 3 full levels of
depth, floored at 40. -/
theorem adjustColor_spec (b : HSL) (d : ℕ) (dark : Bool) :
    (adjustColor b d dark).h = b.h ∧
    (adjustColor b d dark).l =
      (if dark then (65 : ℚ) else 35) +
        ((d % 3 : ℕ) : ℚ) * (if dark then (-5 : ℚ) else 5) ∧
    (adjustColor b d dark).s = max 40 (b.s - ((d / 3 : ℕ) : ℚ) * 10) :=
  ⟨rfl, rfl, rfl⟩

/-! ### C8: palette generation -/

/-- Claim C8: for every `count`, `generateBaseColors count` returns exactly
`count` colors, the `i`-th having hue `i * (360 / count)`, saturation 70
and lightness 50. -/
theorem generateBaseColors_spec (count : ℕ) :
    (generateBaseColors count).length = count ∧
    ∀ i, i < count →
      (generateBaseColors count).getD i ⟨0, 0, 0⟩ =
        ⟨(i : ℚ) * (360 / (count : ℚ)), 70, 50⟩ :=
  ⟨generateBaseColors_length count, fun i hi => generateBaseColors_getD count i hi⟩

/-- Witness for C8 at `count = 4`, `i = 1`. -/
theorem generateBaseColors_spec_witness :
    (generateBaseColors 4).length = 4 ∧
    (generateBaseColors 4).getD 1 ⟨0, 0, 0⟩ = ⟨90, 70, 50⟩ := by
  refine ⟨(generateBaseColors_spec 4).1, ?_⟩
  have h := (generateBaseColors_spec 4).2 1 (by norm_num)
  rw [h]
  norm_num

/-! ### C2: the color-reuse policy of getNextColor -/

/-- Claim C2: for every palette, used-set and depth (with a nonempty palette,
as in the program), `getNextColor` filters the palette to colors not in
the used-set; if the filtered list is nonempty it returns the entry at
index `depth % filteredLength` and adds it to the used-set; otherwise it
clears the used-set and returns the entry at `depth % paletteLength`
from the unfiltered palette, without adding it to the (now empty)
used-set. -/
theorem getNextColor_spec (palette used : List HSL) (depth : ℕ)
    (hp : palette ≠ []) :
    (palette.filter (fun c => decide (c ∉ used)) ≠ [] →
      getNextColor palette used depth =
        ((palette.filter (fun c => decide (c ∉ used))).getD
            (depth % (palette.filter (fun c => decide (c ∉ used))).length)
            ⟨0, 0, 0⟩,
          addUsed
            ((palette.filter (fun c => decide (c ∉ used))).getD
              (depth % (palette.filter (fun c => decide (c ∉ used))).length)
              ⟨0, 0, 0⟩)
            used)) ∧
    (palette.filter (fun c => decide (c ∉ used)) = [] →
      getNextColor palette used depth =
        (palette.getD (depth % palette.length) ⟨0, 0, 0⟩, [])) := by
  constructor
  · intro hne
    unfold getNextColor
    rw [if_neg (by simpa [List.length_eq_zero] using hne)]
  · intro he
    unfold getNextColor
    rw [he]
    simp

/-- Witness for C2: a two-color palette with an empty used-set at
depth 1 picks the second color and marks it used. -/
theorem getNextColor_spec_witness :
    getNextColor [⟨0, 70, 50⟩, ⟨7, 70, 50⟩] [] 1 =
      (⟨7, 70, 50⟩, [⟨7, 70, 50⟩]) := by
  have h := (getNextColor_spec [⟨0, 70, 50⟩, ⟨7, 70, 50⟩] [] 1
    (by decide)).1 (by decide)
  rw [h]
  decide

/-! ### Scan unfolding and character-class lemmas -/

theorem scan_nil (isDark : Bool) (palette : List HSL) (st : ScanState) :
    scan isDark palette st [] = (st, []) := rfl

theorem scan_cons (isDark : Bool) (palette : List HSL) (st : ScanState)
    (c : Char) (cs : List Char) :
    scan isDark palette st (c :: cs) =
      ((scan isDark palette (step isDark palette st c).1 cs).1,
        (step isDark palette st c).2 ::
          (scan isDark palette (step isDark palette st c).1 cs).2) := rfl

theorem closing_not_opening {c : Char} (h : isClosing c = true) :
    isOpening c = false := by
  have hc : c = ')' ∨ c = ']' ∨ c = '}' := by
    simpa [isClosing, or_assoc] using h
  rcases hc with rfl | rfl | rfl <;> rfl

theorem opening_not_closing {c : Char} (h : isOpening c = true) :
    isClosing c = false := by
  have hc : c = '(' ∨ c = '[' ∨ c = '{' := by
    simpa [isOpening, or_assoc] using h
  rcases hc with rfl | rfl | rfl <;> rfl

theorem matching_pair_kinds {o c : Char} (h : isMatchingPair o c = true) :
    isOpening o = true ∧ isClosing c = true := by
  have hoc : (o = '(' ∧ c = ')') ∨ (o = '[' ∧ c = ']') ∨ (o = '{' ∧ c = '}') := by
    simpa [isMatchingPair, or_assoc] using h
  rcases hoc with ⟨rfl, rfl⟩ | ⟨rfl, rfl⟩ | ⟨rfl, rfl⟩ <;> exact ⟨rfl, rfl⟩

theorem not_delim_kinds {c : Char} (h : isDelim c = false) :
    isOpening c = false ∧ isClosing c = false := by
  simpa [isDelim, Bool.or_eq_false_iff] using h

theorem step_opening (isDark : Bool) (palette : List HSL) (st : ScanState)
    {c : Char} (h : isOpening c = true) :
    step isDark palette st c =
      (⟨st.depth + 1,
          (getNextColor palette st.usedColors st.depth).1 :: st.colorStack,
          (getNextColor palette st.usedColors st.depth).2⟩,
        Seg.span
          (adjustColor (getNextColor palette st.usedColors st.depth).1
            st.depth isDark) c) := by
  simp [step, h]

theorem step_closing_cons (isDark : Bool) (palette : List HSL) (st : ScanState)
    {c : Char} {b : HSL} {rest : List HSL} (h : isClosing c = true)
    (hs : st.colorStack = b :: rest) :
    step isDark palette st c =
      (⟨st.depth - 1, rest, st.usedColors⟩,
        Seg.span (adjustColor b st.depth isDark) c) := by
  simp [step, closing_not_opening h, h, hs]

theorem step_closing_empty (isDark : Bool) (palette : List HSL) (st : ScanState)
    {c : Char} (h : isClosing c = true) (hs : st.colorStack = []) :
    step isDark palette st c =
      (⟨st.depth - 1, [], (getNextColor palette st.usedColors st.depth).2⟩,
        Seg.span
          (adjustColor (getNextColor palette st.usedColors st.depth).1
            st.depth isDark) c) := by
  simp [step, closing_not_opening h, h, hs]

theorem step_nondelim (isDark : Bool) (palette : List HSL) (st : ScanState)
    {c : Char} (h : isDelim c = false) :
    step isDark palette st c = (st, Seg.text c) := by
  obtain ⟨h1, h2⟩ := not_delim_kinds h
  simp [step, h1, h2]

theorem stripSeg_step (isDark : Bool) (palette : List HSL) (st : ScanState)
    (c : Char) : stripSeg (step isDark palette st c).2 = [c] := by
  by_cases h1 : isOpening c
  · rw [step_opening isDark palette st h1]; rfl
  · by_cases h2 : isClosing c
    · rcases hs : st.colorStack with _ | ⟨b, rest⟩
      · rw [step_closing_empty isDark palette st h2 hs]; rfl
      · rw [step_closing_cons isDark palette st h2 hs]; rfl
    · rw [step_nondelim isDark palette st (by
        simp only [isDelim, Bool.or_eq_false_iff]
        exact ⟨by simpa using h1, by simpa using h2⟩)]
      rfl

theorem stripMarkup_cons (s : Seg) (ss : List Seg) :
    stripMarkup (s :: ss) = stripSeg s ++ stripMarkup ss := rfl

theorem renderAll_cons (s : Seg) (ss : List Seg) :
    renderAll (s :: ss) = render s ++ renderAll ss := rfl

theorem stripMarkup_scan (isDark : Bool) (palette : List HSL) :
    ∀ (cs : List Char) (st : ScanState),
      stripMarkup (scan isDark palette st cs).2 = cs := by
  intro cs
  induction cs with
  | nil => intro st; rfl
  | cons c cs ih =>
    intro st
    rw [scan_cons, stripMarkup_cons, stripSeg_step, ih]
    rfl

theorem renderAll_scan_nondelim (isDark : Bool) (palette : List HSL) :
    ∀ (cs : List Char) (st : ScanState), (∀ c ∈ cs, isDelim c = false) →
      renderAll (scan isDark palette st cs).2 = cs := by
  intro cs
  induction cs with
  | nil => intro st _; rfl
  | cons c cs ih =>
    intro st h
    rw [scan_cons, renderAll_cons,
      step_nondelim isDark palette st (h c (List.mem_cons_self c cs)),
      ih _ (fun d hd => h d (List.mem_cons_of_mem c hd))]
    rfl

/-! ### C1: stripping the markup recovers the input text -/

/-- Claim C1: for every input text and theme flag, stripping all span markup
from the scan output reproduces the input exactly; and an input with no
delimiter characters (in particular the empty input) is returned
unchanged, with no markup added. -/
theorem colorize_content_spec (isDark : Bool) :
    (∀ text : List Char, stripMarkup (processText isDark text) = text) ∧
    (∀ text : List Char, (∀ c ∈ text, isDelim c = false) →
      colorize text isDark = text) := by
  constructor
  · intro text
    exact stripMarkup_scan isDark baseColors text initState
  · intro text h
    exact renderAll_scan_nondelim isDark baseColors text initState h

/-- Witness for C1: a delimiter-bearing text has its content preserved,
and a delimiter-free text is returned verbatim. -/
theorem colorize_content_spec_witness :
    stripMarkup (processText false ['(', 'a', ')']) = ['(', 'a', ')'] ∧
    colorize ['a', 'b'] false = ['a', 'b'] :=
  ⟨(colorize_content_spec false).1 ['(', 'a', ')'],
    (colorize_content_spec false).2 ['a', 'b'] (by decide)⟩

/-! ### C7: the depth used for color adjustment -/

/-- Claim C7: the depth passed to the context adjuster is the depth at the
moment the delimiter is encountered — before the increment for an
opening delimiter, before the (clamped) decrement for a closing one. -/
theorem adjustment_depth_spec (isDark : Bool) (palette : List HSL)
    (st : ScanState) (c : Char) :
    (isOpening c = true →
      ∃ b, (step isDark palette st c).2 =
          Seg.span (adjustColor b st.depth isDark) c ∧
        (step isDark palette st c).1.depth = st.depth + 1) ∧
    (isClosing c = true →
      ∃ b, (step isDark palette st c).2 =
          Seg.span (adjustColor b st.depth isDark) c ∧
        (step isDark palette st c).1.depth = st.depth - 1) := by
  constructor
  · intro h
    exact ⟨(getNextColor palette st.usedColors st.depth).1,
      by rw [step_opening isDark palette st h],
      by rw [step_opening isDark palette st h]⟩
  · intro h
    rcases hs : st.colorStack with _ | ⟨b, rest⟩
    · exact ⟨(getNextColor palette st.usedColors st.depth).1,
        by rw [step_closing_empty isDark palette st h hs],
        by rw [step_closing_empty isDark palette st h hs]⟩
    · exact ⟨b, by rw [step_closing_cons isDark palette st h hs],
        by rw [step_closing_cons isDark palette st h hs]⟩

/-- Witness for C7 at depth 2: the opener is adjusted at depth 2 and
moves to depth 3; the closer is adjusted at depth 2 and moves to
depth 1. -/
theorem adjustment_depth_spec_witness :
    (∃ b, (step false [] ⟨2, [], []⟩ '(').2 =
        Seg.span (adjustColor b 2 false) '(' ∧
      (step false [] ⟨2, [], []⟩ '(').1.depth = 3) ∧
    (∃ b, (step false [] ⟨2, [⟨5, 70, 50⟩], []⟩ ')').2 =
        Seg.span (adjustColor b 2 false) ')' ∧
      (step false [] ⟨2, [⟨5, 70, 50⟩], []⟩ ')').1.depth = 1) :=
  ⟨(adjustment_depth_spec false [] ⟨2, [], []⟩ '(').1 (by decide),
    (adjustment_depth_spec false [] ⟨2, [⟨5, 70, 50⟩], []⟩ ')').2 (by decide)⟩

/-! ### C10: depth equals the color-stack length -/

theorem step_depth_stack (isDark : Bool) (palette : List HSL) (st : ScanState)
    (c : Char) (hinv : st.depth = st.colorStack.length) :
    (step isDark palette st c).1.depth =
      (step isDark palette st c).1.colorStack.length := by
  by_cases h1 : isOpening c
  · rw [step_opening isDark palette st h1]
    simp [hinv]
  · by_cases h2 : isClosing c
    · rcases hs : st.colorStack with _ | ⟨b, rest⟩
      · rw [step_closing_empty isDark palette st h2 hs]
        rw [hs] at hinv
        simp_all
      · rw [step_closing_cons isDark palette st h2 hs]
        rw [hs] at hinv
        simp [hinv]
    · rw [step_nondelim isDark palette st (by
        simp only [isDelim, Bool.or_eq_false_iff]
        exact ⟨by simpa using h1, by simpa using h2⟩)]
      exact hinv

theorem scan_depth_stack (isDark : Bool) (palette : List HSL) :
    ∀ (cs : List Char) (st : ScanState), st.depth = st.colorStack.length →
      (scan isDark palette st cs).1.depth =
        (scan isDark palette st cs).1.colorStack.length := by
  intro cs
  induction cs with
  | nil => intro st h; exact h
  | cons c cs ih =>
    intro st h
    rw [scan_cons]
    exact ih _ (step_depth_stack isDark palette st c h)

/-- Claim C10: whenever the depth equals the stack height (as it does in every
reachable scan state, the initial state included), it still does after
any further step and after any further input, and the empty-stack
fallback condition of a closing delimiter holds exactly when the depth
is 0; over a whole text from the initial state, the final depth equals
the final stack height. -/
theorem depth_stack_sync_spec (isDark : Bool) (palette : List HSL)
    (st : ScanState) (hinv : st.depth = st.colorStack.length) :
    (∀ c, (step isDark palette st c).1.depth =
      (step isDark palette st c).1.colorStack.length) ∧
    (st.colorStack = [] ↔ st.depth = 0) ∧
    (∀ cs, (scan isDark palette st cs).1.depth =
      (scan isDark palette st cs).1.colorStack.length) ∧
    (∀ text : List Char, (finalState isDark text).depth =
      (finalState isDark text).colorStack.length) := by
  refine ⟨fun c => step_depth_stack isDark palette st c hinv, ?_,
    fun cs => scan_depth_stack isDark palette cs st hinv, ?_⟩
  · rw [hinv]
    exact ⟨fun he => by rw [he]; rfl, fun he => List.length_eq_zero.mp he⟩
  · intro text
    exact scan_depth_stack isDark baseColors text initState rfl

/-- Witness for C10 at a depth-1 state holding one stacked color. -/
theorem depth_stack_sync_spec_witness :
    (∀ c, (step false [] ⟨1, [⟨5, 70, 50⟩], []⟩ c).1.depth =
      (step false [] ⟨1, [⟨5, 70, 50⟩], []⟩ c).1.colorStack.length) ∧
    (([⟨5, 70, 50⟩] : List HSL) = [] ↔ (1 : ℕ) = 0) ∧
    (∀ cs, (scan false [] ⟨1, [⟨5, 70, 50⟩], []⟩ cs).1.depth =
      (scan false [] ⟨1, [⟨5, 70, 50⟩], []⟩ cs).1.colorStack.length) ∧
    (∀ text : List Char, (finalState false text).depth =
      (finalState false text).colorStack.length) :=
  depth_stack_sync_spec false [] ⟨1, [⟨5, 70, 50⟩], []⟩ (by decide)

/-! ### C4: unbalanced closing-only input degrades gracefully -/

/-- Claim C4: scanning any text made only of closing delimiters from depth 0
with an empty stack (and any used-set) never fails: the depth is 0 after
every prefix, the stack stays empty, and one span decoration is emitted
per character. -/
theorem closing_only_spec (isDark : Bool) (cs : List Char) (used : List HSL)
    (h : ∀ c ∈ cs, isClosing c = true) :
    (scan isDark baseColors ⟨0, [], used⟩ cs).1.depth = 0 ∧
    (scan isDark baseColors ⟨0, [], used⟩ cs).1.colorStack = [] ∧
    (scan isDark baseColors ⟨0, [], used⟩ cs).2.length = cs.length ∧
    (∀ s ∈ (scan isDark baseColors ⟨0, [], used⟩ cs).2,
      ∃ col ch, s = Seg.span col ch) ∧
    (∀ n, (scan isDark baseColors ⟨0, [], used⟩ (cs.take n)).1.depth = 0) ∧
    (∀ (st : ScanState) (ch : Char), isClosing ch = true →
      st.colorStack = [] →
      (step isDark baseColors st ch).2 =
        Seg.span
          (adjustColor (getNextColor baseColors st.usedColors st.depth).1
            st.depth isDark) ch) := by
  have hfb : ∀ (st : ScanState) (ch : Char), isClosing ch = true →
      st.colorStack = [] →
      (step isDark baseColors st ch).2 =
        Seg.span
          (adjustColor (getNextColor baseColors st.usedColors st.depth).1
            st.depth isDark) ch := by
    intro st ch hch hst
    rw [step_closing_empty isDark baseColors st hch hst]
  induction cs generalizing used with
  | nil =>
    refine ⟨rfl, rfl, rfl, by simp [scan_nil], fun n => by simp [scan_nil], hfb⟩
  | cons c cs ih =>
    have hc : isClosing c = true := h c (List.mem_cons_self c cs)
    have hstep := step_closing_empty isDark baseColors ⟨0, [], used⟩ hc rfl
    obtain ⟨ih1, ih2, ih3, ih4, ih5, -⟩ :=
      ih ((getNextColor baseColors used 0).2)
        (fun d hd => h d (List.mem_cons_of_mem c hd))
    refine ⟨?_, ?_, ?_, ?_, ?_, hfb⟩
    · rw [scan_cons, hstep]; exact ih1
    · rw [scan_cons, hstep]; exact ih2
    · rw [scan_cons, hstep]
      simpa using ih3
    · rw [scan_cons, hstep]
      intro s hs
      rcases List.mem_cons.mp hs with rfl | hs'
    
      · exact ⟨_, _, rfl⟩
      · exact ih4 s hs'
    · intro n
      cases n with
      | zero => rfl
      | succ n =>
        rw [List.take_succ_cons, scan_cons, hstep]
        exact ih5 n

/-- Witness for C4 on the input `")))"`. -/
theorem closing_only_spec_witness :
    (scan false baseColors ⟨0, [], []⟩ [')', ')', ')']).1.depth = 0 ∧
    (scan false baseColors ⟨0, [], []⟩ [')', ')', ')']).1.colorStack = [] ∧
    (scan false baseColors ⟨0, [], []⟩ [')', ')', ')']).2.length = 3 ∧
    (∀ s ∈ (scan false baseColors ⟨0, [], []⟩ [')', ')', ')']).2,
      ∃ col ch, s = Seg.span col ch) ∧
    (∀ n, (scan false baseColors ⟨0, [], []⟩ ([')', ')', ')'].take n)).1.depth = 0) ∧
    (∀ (st : ScanState) (ch : Char), isClosing ch = true →
      st.colorStack = [] →
      (step false baseColors st ch).2 =
        Seg.span
          (adjustColor (getNextColor baseColors st.usedColors st.depth).1
            st.depth false) ch) :=
  closing_only_spec false [')', ')', ')'] [] (by decide)

/-! ### C5: balanced input returns to depth 0 -/

/-- BalancedSeq, correctly nested delimiter sequences: empty, a
non-delimiter character before a balanced tail, or a kind-matched
delimiter pair wrapping a balanced sequence and followed by one. -/
inductive BalancedSeq : List Char → Prop where
  | nil : BalancedSeq []
  | other {c : Char} {t : List Char} :
      isDelim c = false → BalancedSeq t → BalancedSeq (c :: t)
  | pair {o c : Char} {inner rest : List Char} :
      isMatchingPair o c = true → BalancedSeq inner → BalancedSeq rest →
      BalancedSeq (o :: (inner ++ c :: rest))

theorem scan_append (isDark : Bool) (palette : List HSL) :
    ∀ (u v : List Char) (st : ScanState),
      scan isDark palette st (u ++ v) =
        ((scan isDark palette (scan isDark palette st u).1 v).1,
          (scan isDark palette st u).2 ++
            (scan isDark palette (scan isDark palette st u).1 v).2) := by
  intro u
  induction u with
  | nil => intro v st; rfl
  | cons c u ih =>
    intro v st
    rw [List.cons_append, scan_cons, ih, scan_cons]
    rfl

theorem balanced_scan_state (isDark : Bool) (palette : List HSL) :
    ∀ {cs : List Char}, BalancedSeq cs → ∀ st : ScanState,
      (scan isDark palette st cs).1.depth = st.depth ∧
      (scan isDark palette st cs).1.colorStack = st.colorStack := by
  intro cs hb
  induction hb with
  | nil => intro st; exact ⟨rfl, rfl⟩
  | other hnd _ ih =>
    intro st
    rw [scan_cons, step_nondelim isDark palette st hnd]
    exact ih st
  | @pair o c inner rest hm _ _ ihi ihr =>
    intro st
    obtain ⟨ho, hc⟩ := matching_pair_kinds hm
    rw [scan_cons, step_opening isDark palette st ho, scan_append]
    set st1 : ScanState :=
      ⟨st.depth + 1,
        (getNextColor palette st.usedColors st.depth).1 :: st.colorStack,
        (getNextColor palette st.usedColors st.depth).2⟩ with hst1
    obtain ⟨hd1, hs1⟩ := ihi st1
    rw [scan_cons, step_closing_cons isDark palette
      (scan isDark palette st1 inner).1 hc (by rw [hs1])]
    obtain ⟨hd2, hs2⟩ := ihr
      ⟨(scan isDark palette st1 inner).1.depth - 1, st.colorStack,
        (scan isDark palette st1 inner).1.usedColors⟩
    rw [hd2, hs2, hd1]
    exact ⟨rfl, rfl⟩

/-- Spans of the output that decorate an opening delimiter. -/
def isOpenSpan : Seg → Bool
  | .span _ ch => isOpening ch
  | .text _ => false

/-- Spans of the output that decorate a closing delimiter. -/
def isCloseSpan : Seg → Bool
  | .span _ ch => isClosing ch
  | .text _ => false

theorem step_isOpenSpan (isDark : Bool) (palette : List HSL) (st : ScanState)
    (c : Char) : isOpenSpan (step isDark palette st c).2 = isOpening c := by
  by_cases h1 : isOpening c
  · rw [step_opening isDark palette st h1]; rfl
  · by_cases h2 : isClosing c
    · rcases hs : st.colorStack with _ | ⟨b, rest⟩
      · rw [step_closing_empty isDark palette st h2 hs]; rfl
      · rw [step_closing_cons isDark palette st h2 hs]; rfl
    · rw [step_nondelim isDark palette st (by
        simp only [isDelim, Bool.or_eq_false_iff]
        exact ⟨by simpa using h1, by simpa using h2⟩)]
      exact ((Bool.not_eq_true _).mp h1).symm

theorem step_isCloseSpan (isDark : Bool) (palette : List HSL) (st : ScanState)
    (c : Char) : isCloseSpan (step isDark palette st c).2 = isClosing c := by
  by_cases h1 : isOpening c
  · rw [step_opening isDark palette st h1]; rfl
  · by_cases h2 : isClosing c
    · rcases hs : st.colorStack with _ | ⟨b, rest⟩
      · rw [step_closing_empty isDark palette st h2 hs]; rfl
      · rw [step_closing_cons isDark palette st h2 hs]; rfl
    · rw [step_nondelim isDark palette st (by
        simp only [isDelim, Bool.or_eq_false_iff]
        exact ⟨by simpa using h1, by simpa using h2⟩)]
      exact ((Bool.not_eq_true _).mp h2).symm

theorem scan_countP_open (isDark : Bool) (palette : List HSL) :
    ∀ (cs : List Char) (st : ScanState),
      (scan isDark palette st cs).2.countP isOpenSpan =
        cs.countP isOpening := by
  intro cs
  induction cs with
  | nil => intro st; rfl
  | cons c cs ih =>
    intro st
    rw [scan_cons, List.countP_cons, List.countP_cons, ih,
      step_isOpenSpan isDark palette st c]

theorem scan_countP_close (isDark : Bool) (palette : List HSL) :
    ∀ (cs : List Char) (st : ScanState),
      (scan isDark palette st cs).2.countP isCloseSpan =
        cs.countP isClosing := by
  intro cs
  induction cs with
  | nil => intro st; rfl
  | cons c cs ih =>
    intro st
    rw [scan_cons, List.countP_cons, List.countP_cons, ih,
      step_isCloseSpan isDark palette st c]

theorem balanced_countP {cs : List Char} (hb : BalancedSeq cs) :
    cs.countP isOpening = cs.countP isClosing := by
  induction hb with
  | nil => rfl
  | @other c t hnd _ ih =>
    obtain ⟨h1, h2⟩ := not_delim_kinds hnd
    rw [List.countP_cons, List.countP_cons, ih, h1, h2]
  | @pair o c inner rest hm _ _ ihi ihr =>
    obtain ⟨ho, hc⟩ := matching_pair_kinds hm
    rw [List.countP_cons, List.countP_cons, List.countP_append,
      List.countP_append, List.countP_cons, List.countP_cons, ihi, ihr,
      ho, hc, opening_not_closing ho, closing_not_opening hc]
    simp [Nat.add_comm, Nat.add_assoc, Nat.add_left_comm]

/-- Claim C5: for every balanced, correctly nested delimiter sequence, the
depth is exactly 0 after the final character, and the number of span
decorations on opening delimiters equals the number on closing ones. -/
theorem balanced_spec (isDark : Bool) {cs : List Char} (hb : BalancedSeq cs) :
    (finalState isDark cs).depth = 0 ∧
    (processText isDark cs).countP isOpenSpan =
      (processText isDark cs).countP isCloseSpan := by
  constructor
  · exact (balanced_scan_state isDark baseColors hb initState).1
  · rw [processText, scan_countP_open, scan_countP_close]
    exact balanced_countP hb

/-- Witness for C5 on the balanced input `"(a[b]{c})"`. -/
theorem balanced_spec_witness :
    (finalState false ['(', 'a', '[', 'b', ']', '{', 'c', '}', ')']).depth = 0 ∧
    (processText false ['(', 'a', '[', 'b', ']', '{', 'c', '}', ')']).countP
        isOpenSpan =
      (processText false ['(', 'a', '[', 'b', ']', '{', 'c', '}', ')']).countP
        isCloseSpan := by
  have hc : BalancedSeq ['c'] := .other (by decide) .nil
  have hcurly : BalancedSeq ['{', 'c', '}'] := @BalancedSeq.pair '{' '}' ['c'] []
    (by decide) hc .nil
  have hb : BalancedSeq ['b'] := .other (by decide) .nil
  have hsq : BalancedSeq ['[', 'b', ']', '{', 'c', '}'] :=
    @BalancedSeq.pair '[' ']' ['b'] ['{', 'c', '}'] (by decide) hb hcurly
  have hinner : BalancedSeq ['a', '[', 'b', ']', '{', 'c', '}'] :=
    .other (by decide) hsq
  have hball : BalancedSeq ['(', 'a', '[', 'b', ']', '{', 'c', '}', ')'] :=
    @BalancedSeq.pair '(' ')' ['a', '[', 'b', ']', '{', 'c', '}'] []
      (by decide) hinner .nil
  exact balanced_spec false hball

/-! ### C3: a closer reuses the base color its opener pushed -/

theorem getNextColor_init :
    getNextColor baseColors [] 0 = (⟨0, 70, 50⟩, [⟨0, 70, 50⟩]) := by
  have hfil : baseColors.filter (fun c => decide (c ∉ ([] : List HSL))) =
      baseColors := by simp
  have hne : ¬baseColors.length = 0 := by rw [baseColors_length]; norm_num
  simp only [getNextColor, hfil, if_neg hne, Nat.zero_mod, baseColors_getD_zero]
  simp [addUsed]

theorem processText_paren_x :
    processText false ['(', 'x', ')'] =
      [Seg.span (adjustColor ⟨0, 70, 50⟩ 0 false) '(', Seg.text 'x',
        Seg.span (adjustColor ⟨0, 70, 50⟩ 1 false) ')'] ∧
    finalState false ['(', 'x', ')'] = ⟨0, [], [⟨0, 70, 50⟩]⟩ := by
  have h1 : step false baseColors initState '(' =
      (⟨1, [⟨0, 70, 50⟩], [⟨0, 70, 50⟩]⟩,
        Seg.span (adjustColor ⟨0, 70, 50⟩ 0 false) '(') := by
    rw [step_opening false baseColors initState (by decide)]
    show ((⟨0 + 1, (getNextColor baseColors [] 0).1 :: [],
        (getNextColor baseColors [] 0).2⟩ : ScanState),
        Seg.span (adjustColor (getNextColor baseColors [] 0).1 0 false) '(') =
      ((⟨1, [⟨0, 70, 50⟩], [⟨0, 70, 50⟩]⟩ : ScanState),
        Seg.span (adjustColor ⟨0, 70, 50⟩ 0 false) '(')
    rw [getNextColor_init]
  have h2 : step false baseColors ⟨1, [⟨0, 70, 50⟩], [⟨0, 70, 50⟩]⟩ 'x' =
      (⟨1, [⟨0, 70, 50⟩], [⟨0, 70, 50⟩]⟩, Seg.text 'x') :=
    step_nondelim false baseColors _ (by decide)
  have h3 : step false baseColors ⟨1, [⟨0, 70, 50⟩], [⟨0, 70, 50⟩]⟩ ')' =
      (⟨0, [], [⟨0, 70, 50⟩]⟩,
        Seg.span (adjustColor ⟨0, 70, 50⟩ 1 false) ')') := by
    rw [step_closing_cons false baseColors _ (by decide) rfl]; rfl
  constructor
  · simp only [processText, scan_cons, scan_nil, h1, h2, h3]
  · simp only [finalState, scan_cons, scan_nil, h1, h2, h3]

/-- Claim C3, counterexample to "at depth 0" for the closer: in
`colorize("(x)", false)` the `)` is decorated with the shared base color
adjusted at depth 1 (the depth before the decrement), which differs from
the depth-0 adjustment the claim describes (lightness 40, not 35). -/
theorem closing_adjust_depth_counterexample :
    processText false ['(', 'x', ')'] =
      [Seg.span (adjustColor ⟨0, 70, 50⟩ 0 false) '(', Seg.text 'x',
        Seg.span (adjustColor ⟨0, 70, 50⟩ 1 false) ')'] ∧
    adjustColor ⟨0, 70, 50⟩ 1 false ≠ adjustColor ⟨0, 70, 50⟩ 0 false := by
  refine ⟨processText_paren_x.1, fun h => ?_⟩
  have hl : (adjustColor ⟨0, 70, 50⟩ 1 false).l =
      (adjustColor ⟨0, 70, 50⟩ 0 false).l := by rw [h]
  norm_num [adjustColor] at hl

/-- Claim C3 (amended): for a kind-matched delimiter pair around a balanced
inner sequence, the closer's span carries the very base color the opener
pushed onto the stack, adjusted at the depth current when the closer is
scanned (the opener's depth plus one); in particular, in
`colorize("(x)", false)` the `(` is wrapped with the depth-0 light-theme
adjustment of base `⟨0, 70, 50⟩`, the `)` with the depth-1 adjustment of
that same base, and `x` is left unwrapped. -/
theorem matched_pair_spec (isDark : Bool) (palette : List HSL) (st : ScanState)
    {o c : Char} {inner : List Char} (hm : isMatchingPair o c = true)
    (hbi : BalancedSeq inner) :
    (∃ segsInner : List Seg,
      (scan isDark palette st (o :: (inner ++ [c]))).2 =
        Seg.span (adjustColor (getNextColor palette st.usedColors st.depth).1
            st.depth isDark) o ::
          (segsInner ++
            [Seg.span (adjustColor (getNextColor palette st.usedColors st.depth).1
              (st.depth + 1) isDark) c])) ∧
    processText false ['(', 'x', ')'] =
      [Seg.span (adjustColor ⟨0, 70, 50⟩ 0 false) '(', Seg.text 'x',
        Seg.span (adjustColor ⟨0, 70, 50⟩ 1 false) ')'] := by
  refine ⟨?_, processText_paren_x.1⟩
  obtain ⟨ho, hc⟩ := matching_pair_kinds hm
  rw [scan_cons, step_opening isDark palette st ho]
  set st1 : ScanState :=
    ⟨st.depth + 1,
      (getNextColor palette st.usedColors st.depth).1 :: st.colorStack,
      (getNextColor palette st.usedColors st.depth).2⟩ with hst1
  rw [scan_append]
  obtain ⟨hd1, hs1⟩ := balanced_scan_state isDark palette hbi st1
  refine ⟨(scan isDark palette st1 inner).2, ?_⟩
  rw [scan_cons,
    step_closing_cons isDark palette (scan isDark palette st1 inner).1 hc
      (by rw [hs1]), scan_nil, hd1]

/-- Witness for C3 (amended) on `"(x)"`: opener and closer share the
base color chosen at depth 0; the closer is adjusted at depth 1. -/
theorem matched_pair_spec_witness :
    (∃ segsInner : List Seg,
      (scan false baseColors initState ('(' :: (['x'] ++ [')']))).2 =
        Seg.span (adjustColor (getNextColor baseColors [] 0).1 0 false) '(' ::
          (segsInner ++
            [Seg.span (adjustColor (getNextColor baseColors [] 0).1 1 false)
              ')'])) ∧
    processText false ['(', 'x', ')'] =
      [Seg.span (adjustColor ⟨0, 70, 50⟩ 0 false) '(', Seg.text 'x',
        Seg.span (adjustColor ⟨0, 70, 50⟩ 1 false) ')'] :=
  matched_pair_spec false baseColors initState (by decide)
    (BalancedSeq.other (by decide) BalancedSeq.nil)

/-! ### C9: hex formatting round-trips the RGB triple -/

/-- The sixteen digit characters `toString(16)` can produce. -/
def hexDigits : List Char := "0123456789abcdef".toList

/-- Decode one lowercase hex digit character back to its value. -/
def ofHexDigit (ch : Char) : ℕ :=
  if ch.toNat ≤ 57 then ch.toNat - 48 else ch.toNat - 87

/-- Decode two hex digit characters back to a byte value. -/
def decodeHexByte (a b : Char) : ℕ := ofHexDigit a * 16 + ofHexDigit b

/-- Decode a 7-character `#rrggbb` string back to an RGB triple. -/
def decodeHexColor : List Char → Option (ℤ × ℤ × ℤ)
  | ['#', a, b, c, d, e, f] =>
    some ((decodeHexByte a b : ℤ), (decodeHexByte c d : ℤ),
      (decodeHexByte e f : ℤ))
  | _ => none

theorem hexDigitChar_mem (d : ℕ) (h : d < 16) : hexDigitChar d ∈ hexDigits := by
  interval_cases d <;> decide

theorem ofHexDigit_hexDigitChar (d : ℕ) (h : d < 16) :
    ofHexDigit (hexDigitChar d) = d := by
  interval_cases d <;> decide

theorem toString16Go_succ (fuel n : ℕ) (acc : List Char) :
    toString16Go (fuel + 1) n acc =
      if n < 16 then hexDigitChar n :: acc
      else toString16Go fuel (n / 16) (hexDigitChar (n % 16) :: acc) := rfl

theorem toString16_small (n : ℕ) (h : n < 16) :
    toString16 n = [hexDigitChar n] := by
  rw [toString16, toString16Go_succ, if_pos h]

theorem toString16_two (n : ℕ) (h16 : 16 ≤ n) (h : n < 256) :
    toString16 n = [hexDigitChar (n / 16), hexDigitChar (n % 16)] := by
  obtain ⟨m, rfl⟩ : ∃ m, n = m + 1 := ⟨n - 1, by omega⟩
  rw [toString16, toString16Go_succ, if_neg (by omega), toString16Go_succ,
    if_pos (by omega)]

theorem toHexByte_eq (n : ℕ) (h : n < 256) :
    toHexByte n = [hexDigitChar (n / 16), hexDigitChar (n % 16)] := by
  by_cases h16 : n < 16
  · rw [toHexByte, toString16_small n h16, padStart2,
      Nat.div_eq_of_lt h16, Nat.mod_eq_of_lt h16]
    rfl
  · push_neg at h16
    rw [toHexByte, toString16_two n h16 h, padStart2]
    simp

theorem decode_toHexByte (n : ℕ) (h : n < 256) :
    decodeHexByte (hexDigitChar (n / 16)) (hexDigitChar (n % 16)) = n := by
  rw [decodeHexByte, ofHexDigit_hexDigitChar _ (by omega),
    ofHexDigit_hexDigitChar _ (by omega)]
  omega

theorem jsRound_range (q : ℚ) (h0 : 0 ≤ q) (h1 : q ≤ 255) :
    0 ≤ jsRound q ∧ jsRound q ≤ 255 := by
  constructor
  · rw [jsRound]
    exact Int.le_floor.mpr (by push_cast; linarith)
  · rw [jsRound]
    have hlt : ⌊q + 1 / 2⌋ < 256 := Int.floor_lt.mpr (by push_cast; linarith)
    omega

theorem jsMod_two_range (a : ℚ) : 0 ≤ jsMod a 2 ∧ jsMod a 2 < 2 := by
  have hle := Int.floor_le (a / 2)
  have hlt := Int.lt_floor_add_one (a / 2)
  constructor
  · rw [jsMod]; linarith
  · rw [jsMod]; push_cast at hlt; linarith

theorem hslToRgb_range (h s l : ℚ) (hs0 : 0 ≤ s) (hs1 : s ≤ 100)
    (hl0 : 0 ≤ l) (hl1 : l ≤ 100) :
    0 ≤ (hslToRgb h s l).1 ∧ (hslToRgb h s l).1 ≤ 255 ∧
    0 ≤ (hslToRgb h s l).2.1 ∧ (hslToRgb h s l).2.1 ≤ 255 ∧
    0 ≤ (hslToRgb h s l).2.2 ∧ (hslToRgb h s l).2.2 ≤ 255 := by
  have habs : |2 * (l / 100) - 1| ≤ 1 :=
    abs_le.mpr ⟨by linarith, by linarith⟩
  have hc0 : 0 ≤ (1 - |2 * (l / 100) - 1|) * (s / 100) :=
    mul_nonneg (by linarith) (by linarith)
  have hc2l : (1 - |2 * (l / 100) - 1|) * (s / 100) ≤ 2 * (l / 100) := by
    have h1 := neg_le_abs (2 * (l / 100) - 1)
    nlinarith [abs_nonneg (2 * (l / 100) - 1)]
  have hc2l' : (1 - |2 * (l / 100) - 1|) * (s / 100) ≤ 2 - 2 * (l / 100) := by
    have h1 := le_abs_self (2 * (l / 100) - 1)
    nlinarith [abs_nonneg (2 * (l / 100) - 1)]
  have hm0 : 0 ≤ l / 100 - (1 - |2 * (l / 100) - 1|) * (s / 100) / 2 := by
    linarith
  have hcm : (1 - |2 * (l / 100) - 1|) * (s / 100) +
      (l / 100 - (1 - |2 * (l / 100) - 1|) * (s / 100) / 2) ≤ 1 := by
    linarith
  obtain ⟨ht0, ht1⟩ := jsMod_two_range (h / 60)
  have htabs : |jsMod (h / 60) 2 - 1| ≤ 1 := abs_le.mpr ⟨by linarith, by linarith⟩
  have hx0 : 0 ≤ (1 - |2 * (l / 100) - 1|) * (s / 100) *
      (1 - |jsMod (h / 60) 2 - 1|) :=
    mul_nonneg hc0 (by linarith)
  have hxc : (1 - |2 * (l / 100) - 1|) * (s / 100) *
      (1 - |jsMod (h / 60) 2 - 1|) ≤ (1 - |2 * (l / 100) - 1|) * (s / 100) := by
    nlinarith [abs_nonneg (jsMod (h / 60) 2 - 1)]
  have key : ∀ v : ℚ, 0 ≤ v → v ≤ (1 - |2 * (l / 100) - 1|) * (s / 100) →
      0 ≤ jsRound ((v + (l / 100 -
          (1 - |2 * (l / 100) - 1|) * (s / 100) / 2)) * 255) ∧
      jsRound ((v + (l / 100 -
          (1 - |2 * (l / 100) - 1|) * (s / 100) / 2)) * 255) ≤ 255 := by
    intro v hv0 hvc
    exact jsRound_range _ (by nlinarith) (by nlinarith)
  have kc := key _ hc0 le_rfl
  have kx := key _ hx0 hxc
  have k0 := key 0 le_rfl hc0
  simp only [hslToRgb]
  split_ifs <;> dsimp only <;> first
    | exact ⟨kc.1, kc.2, kx.1, kx.2, k0.1, k0.2⟩
    | exact ⟨kx.1, kx.2, kc.1, kc.2, k0.1, k0.2⟩
    | exact ⟨k0.1, k0.2, kc.1, kc.2, kx.1, kx.2⟩
    | exact ⟨k0.1, k0.2, kx.1, kx.2, kc.1, kc.2⟩
    | exact ⟨kx.1, kx.2, k0.1, k0.2, kc.1, kc.2⟩
    | exact ⟨kc.1, kc.2, k0.1, k0.2, kx.1, kx.2⟩

/-- Claim C9: for `h ∈ [0, 360)` and `s, l ∈ [0, 100]`, the hex string of
`hslToRgb` then `toHex` is exactly 7 characters — `'#'` followed by six
lowercase, zero-padded hex digits — and decoding those digits reproduces
exactly the integer RGB triple `hslToRgb` produced. -/
theorem hslToHex_spec (h s l : ℚ) (hh0 : 0 ≤ h) (hh1 : h < 360)
    (hs0 : 0 ≤ s) (hs1 : s ≤ 100) (hl0 : 0 ≤ l) (hl1 : l ≤ 100) :
    (hslToHex h s l).length = 7 ∧
    (hslToHex h s l).head? = some '#' ∧
    (∀ ch ∈ (hslToHex h s l).tail, ch ∈ hexDigits) ∧
    decodeHexColor (hslToHex h s l) = some (hslToRgb h s l) := by
  obtain ⟨hr0, hr1, hg0, hg1, hb0, hb1⟩ := hslToRgb_range h s l hs0 hs1 hl0 hl1
  have hrlt : (hslToRgb h s l).1.toNat < 256 := by omega
  have hglt : (hslToRgb h s l).2.1.toNat < 256 := by omega
  have hblt : (hslToRgb h s l).2.2.toNat < 256 := by omega
  have hhex : hslToHex h s l =
      '#' :: ([hexDigitChar ((hslToRgb h s l).1.toNat / 16),
        hexDigitChar ((hslToRgb h s l).1.toNat % 16)] ++
        [hexDigitChar ((hslToRgb h s l).2.1.toNat / 16),
          hexDigitChar ((hslToRgb h s l).2.1.toNat % 16)] ++
        [hexDigitChar ((hslToRgb h s l).2.2.toNat / 16),
          hexDigitChar ((hslToRgb h s l).2.2.toNat % 16)]) := by
    simp only [hslToHex]
    rw [toHexByte_eq _ hrlt, toHexByte_eq _ hglt, toHexByte_eq _ hblt]
  refine ⟨?_, ?_, ?_, ?_⟩
  · rw [hhex]; rfl
  · rw [hhex]; rfl
  · rw [hhex]
    intro ch hch
    simp only [List.tail_cons, List.mem_append, List.mem_cons,
      List.not_mem_nil, or_false] at hch
    rcases hch with ((rfl | rfl) | (rfl | rfl)) | (rfl | rfl) <;>
      exact hexDigitChar_mem _ (by omega)
  · rw [hhex]
    simp only [List.cons_append, List.nil_append, decodeHexColor]
    rw [decode_toHexByte _ hrlt, decode_toHexByte _ hglt,
      decode_toHexByte _ hblt, Int.toNat_of_nonneg hr0,
      Int.toNat_of_nonneg hg0, Int.toNat_of_nonneg hb0]

/-- Witness for C9 at `h = s = l = 0` (black, `#000000`). -/
theorem hslToHex_spec_witness :
    (hslToHex 0 0 0).length = 7 ∧
    (hslToHex 0 0 0).head? = some '#' ∧
    (∀ ch ∈ (hslToHex 0 0 0).tail, ch ∈ hexDigits) ∧
    decodeHexColor (hslToHex 0 0 0) = some (hslToRgb 0 0 0) :=
  hslToHex_spec 0 0 0 (by norm_num) (by norm_num) (by norm_num)
    (by norm_num) (by norm_num) (by norm_num)
